import Mathlib

/-!
Verification development for the glimmer rendering kernel.

Each definition below is a shallow embedding of a function from the C++
source (file and symbol named in the doc comment).  Scalar template
parameter `T` is instantiated at `ℚ` where only ordered-field arithmetic
occurs, and at `ℝ` where square roots or trigonometric functions appear.
-/

set_option maxHeartbeats 1000000

namespace Glimmer

/-! ## Row partition of the tiled renderer (renderer_path_tracer.ixx, RendererPathTracer::render) -/

/-- Number of worker threads: min(hardware threads, image height). -/
def threadCount (hw height : ℕ) : ℕ := min hw height

/-- Rows assigned to thread `t`: `rows_per_thread + (t < remainder ? 1 : 0)`. -/
def rowCount (hw height t : ℕ) : ℕ :=
  height / threadCount hw height +
    (if t < height % threadCount hw height then 1 else 0)

/-- The running `y0` of the partition loop: thread `t` covers rows
`[rowStart t, rowStart (t+1))`. -/
def rowStart (hw height : ℕ) : ℕ → ℕ
  | 0 => 0
  | t + 1 => rowStart hw height t + rowCount hw height t

lemma rowStart_closed (hw height t : ℕ) :
    rowStart hw height t =
      t * (height / threadCount hw height) +
        min t (height % threadCount hw height) := by
  induction t with
  | zero => simp [rowStart]
  | succ t ih =>
    rw [rowStart, ih, rowCount]
    rcases lt_or_ge t (height % threadCount hw height) with h | h
    · rw [if_pos h, min_eq_left h.le, min_eq_left h, Nat.succ_mul]
      omega
    · rw [if_neg (not_lt.mpr h), min_eq_right h,
        min_eq_right (le_trans h (Nat.le_succ t)), Nat.succ_mul]
      omega

lemma rowStart_mono (hw height : ℕ) {s t : ℕ} (h : s ≤ t) :
    rowStart hw height s ≤ rowStart hw height t := by
  rw [rowStart_closed, rowStart_closed]
  have h1 : s * (height / threadCount hw height) ≤
      t * (height / threadCount hw height) :=
    Nat.mul_le_mul_right _ h
  have h2 : min s (height % threadCount hw height) ≤
      min t (height % threadCount hw height) := min_le_min h le_rfl
  omega

lemma exists_block (f : ℕ → ℕ) :
    ∀ n y : ℕ, f 0 ≤ y → y < f n → ∃ t, t < n ∧ f t ≤ y ∧ y < f (t + 1) := by
  intro n
  induction n with
  | zero => intro y h0 h1; omega
  | succ n ih =>
    intro y h0 h1
    by_cases h : y < f n
    · obtain ⟨t, ht, h2, h3⟩ := ih y h0 h
      exact ⟨t, Nat.lt_succ_of_lt ht, h2, h3⟩
    · exact ⟨n, Nat.lt_succ_self n, not_lt.mp h, h1⟩

/-! ## Russian roulette (renderer_path_tracer.ixx, path_trace_, lines 245-253) -/

/-- std::clamp from the C++ standard library. -/
def clampQ (v lo hi : ℚ) : ℚ := if v < lo then lo else if hi < v then hi else v

/-- Color<T,3>: throughput `beta` carried by the path-tracing loop. -/
structure Color3Q where
  r : ℚ
  g : ℚ
  b : ℚ
deriving DecidableEq

/-- Component-wise division of a color by a scalar (Vector operator/). -/
def Color3Q.divScalar (c : Color3Q) (s : ℚ) : Color3Q := ⟨c.r / s, c.g / s, c.b / s⟩

/-- The Russian-roulette block of path_trace_, embedded from the source:
executed after a hit was found; `none` means the loop breaks (path
terminated), `some beta` is the updated throughput. -/
def russianRoulette (depth : ℕ) (beta : Color3Q) (u : ℚ) : Option Color3Q :=
  if 3 ≤ depth then
    let max_c := max (max beta.r beta.g) beta.b
    let max_c2 := clampQ max_c 0 1
    let q := 1 - max_c2
    if u < q then none else some (beta.divScalar (1 - q))
  else some beta

/-- Russian roulette as the specification words it: `q = 1 − clamp(max(beta_r,
beta_g, beta_b), 0, 1)`; terminate when `u < q`, else divide `beta` by `1 − q`;
no roulette below depth 3. -/
def russianRouletteSpec (depth : ℕ) (beta : Color3Q) (u : ℚ) : Option Color3Q :=
  if depth < 3 then some beta
  else
    let q := 1 - clampQ (max (max beta.r beta.g) beta.b) 0 1
    if u < q then none else some (beta.divScalar (1 - q))

/-! ## Camera construction (camera.ixx, Camera::Camera) -/

/-- Camera state: camera-to-world transform plus projection parameters.
The transform type is kept abstract (`X`); the constructor never inspects it. -/
structure Camera (X : Type) where
  c2w : X
  fov_y : ℚ
  aspect : ℚ
  z_near : ℚ
  z_far : ℚ
deriving DecidableEq

/-- The Camera constructor: throwing `std::invalid_argument` is modelled as
`none`; a successfully constructed camera as `some`. -/
def Camera.make (X : Type) (cam_to_world : X) (fov_y_radians aspect z_near z_far : ℚ) :
    Option (Camera X) :=
  if ¬ (0 < aspect) then none
  else if ¬ (0 < z_near) ∨ ¬ (z_near < z_far) then none
  else some ⟨cam_to_world, fov_y_radians, aspect, z_near, z_far⟩

end Glimmer

namespace Glimmer

/-! ## AABB slab intersection (aabb module, AABB::intersect) -/

/-- 3-component vector over ℚ. -/
structure Vec3Q where
  x : ℚ
  y : ℚ
  z : ℚ
deriving DecidableEq

/-- Ray over ℚ: origin, direction and valid parameter interval. -/
structure RayQ where
  origin : Vec3Q
  direction : Vec3Q
  tmin : ℚ
  tmax : ℚ
deriving DecidableEq

/-- AABB: minimum and maximum corner. -/
structure AABBQ where
  min : Vec3Q
  max : Vec3Q
deriving DecidableEq

/-- AABB::empty(): no valid extent. -/
def AABBQ.isEmptyBox (b : AABBQ) : Prop :=
  ¬ (b.min.x ≤ b.max.x ∧ b.min.y ≤ b.max.y ∧ b.min.z ≤ b.max.z)

instance (b : AABBQ) : Decidable b.isEmptyBox := by
  unfold AABBQ.isEmptyBox; infer_instance

/-- One iteration of the slab loop of AABB::intersect for a single axis with
slab `[mn, mx]`, ray origin component `o` and direction component `d`; the
accumulator holds the running `[t0, t1]` interval, `none` once the loop has
early-returned. -/
def axisStep (mn mx o d : ℚ) : Option (ℚ × ℚ) → Option (ℚ × ℚ)
  | none => none
  | some (t0, t1) =>
    if d = 0 then
      if o < mn ∨ o > mx then none else some (t0, t1)
    else
      let invD := 1 / d
      let tn := (mn - o) * invD
      let tf := (mx - o) * invD
      let tn2 := if tn > tf then tf else tn
      let tf2 := if tn > tf then tn else tf
      let t0n := if tn2 > t0 then tn2 else t0
      let t1n := if tf2 < t1 then tf2 else t1
      if t1n < t0n then none else some (t0n, t1n)

/-- AABB::intersect: the three-axis slab loop, unrolled. -/
def AABBQ.intersect (b : AABBQ) (ray : RayQ) : Option (ℚ × ℚ) :=
  if b.isEmptyBox then none
  else
    axisStep b.min.z b.max.z ray.origin.z ray.direction.z
      (axisStep b.min.y b.max.y ray.origin.y ray.direction.y
        (axisStep b.min.x b.max.x ray.origin.x ray.direction.x
          (some (ray.tmin, ray.tmax))))

/-- Specification wording, zero-direction axes: such an axis yields no hit
unless the origin component lies within the slab. -/
def slabZeroMiss (b : AABBQ) (ray : RayQ) : Prop :=
  (ray.direction.x = 0 ∧ (ray.origin.x < b.min.x ∨ b.max.x < ray.origin.x)) ∨
  (ray.direction.y = 0 ∧ (ray.origin.y < b.min.y ∨ b.max.y < ray.origin.y)) ∨
  (ray.direction.z = 0 ∧ (ray.origin.z < b.min.z ∨ b.max.z < ray.origin.z))

instance (b : AABBQ) (ray : RayQ) : Decidable (slabZeroMiss b ray) := by
  unfold slabZeroMiss; infer_instance

/-- Specification wording, lower interval end: a zero-direction axis imposes no
restriction; otherwise the smaller ordered slab crossing is intersected with
the running interval. -/
def slabNear (mn mx o d t : ℚ) : ℚ :=
  if d = 0 then t else max t (min ((mn - o) / d) ((mx - o) / d))

/-- Specification wording, upper interval end. -/
def slabFar (mn mx o d t : ℚ) : ℚ :=
  if d = 0 then t else min t (max ((mn - o) / d) ((mx - o) / d))

/-- The slab method exactly as the specification sentence describes it:
zero-direction axes demand containment, the other axes intersect their ordered
crossings with the running interval started at `[t_min, t_max]`, and an empty
final interval yields no hit. -/
def slabSpec (b : AABBQ) (ray : RayQ) : Option (ℚ × ℚ) :=
  if slabZeroMiss b ray then none
  else
    let t0 := slabNear b.min.z b.max.z ray.origin.z ray.direction.z
      (slabNear b.min.y b.max.y ray.origin.y ray.direction.y
        (slabNear b.min.x b.max.x ray.origin.x ray.direction.x ray.tmin))
    let t1 := slabFar b.min.z b.max.z ray.origin.z ray.direction.z
      (slabFar b.min.y b.max.y ray.origin.y ray.direction.y
        (slabFar b.min.x b.max.x ray.origin.x ray.direction.x ray.tmax))
    if t1 < t0 then none else some (t0, t1)

lemma le_slabNear (mn mx o d t : ℚ) : t ≤ slabNear mn mx o d t := by
  unfold slabNear
  split
  · exact le_rfl
  · exact le_max_left _ _

lemma slabFar_le (mn mx o d t : ℚ) : slabFar mn mx o d t ≤ t := by
  unfold slabFar
  split
  · exact le_rfl
  · exact min_le_left _ _

lemma axisStep_some (mn mx o d t0 t1 : ℚ) (h : t0 ≤ t1) :
    axisStep mn mx o d (some (t0, t1)) =
      if d = 0 ∧ (o < mn ∨ mx < o) then none
      else if slabFar mn mx o d t1 < slabNear mn mx o d t0 then none
      else some (slabNear mn mx o d t0, slabFar mn mx o d t1) := by
  by_cases hd : d = 0
  · simp only [axisStep, if_pos hd]
    by_cases hm : o < mn ∨ o > mx
    · rw [if_pos hm, if_pos ⟨hd, hm⟩]
    · rw [if_neg hm, if_neg (fun hc => hm hc.2)]
      simp only [slabNear, slabFar, if_pos hd]
      rw [if_neg (not_lt.mpr h)]
  · simp only [axisStep, if_neg hd]
    have hN : slabNear mn mx o d t0 = max t0 (min ((mn - o) / d) ((mx - o) / d)) := by
      rw [slabNear, if_neg hd]
    have hF : slabFar mn mx o d t1 = min t1 (max ((mn - o) / d) ((mx - o) / d)) := by
      rw [slabFar, if_neg hd]
    have hmn : (if (mn - o) * (1 / d) > (mx - o) * (1 / d)
        then (mx - o) * (1 / d) else (mn - o) * (1 / d)) =
        min ((mn - o) / d) ((mx - o) / d) := by
      rcases le_or_lt ((mn - o) * (1 / d)) ((mx - o) * (1 / d)) with hc | hc
      · rw [if_neg (not_lt.mpr hc), mul_one_div,
          min_eq_left (by rw [mul_one_div, mul_one_div] at hc; exact hc)]
      · rw [if_pos hc, mul_one_div,
          min_eq_right (by rw [mul_one_div, mul_one_div] at hc; exact hc.le)]
    have hmx : (if (mn - o) * (1 / d) > (mx - o) * (1 / d)
        then (mn - o) * (1 / d) else (mx - o) * (1 / d)) =
        max ((mn - o) / d) ((mx - o) / d) := by
      rcases le_or_lt ((mn - o) * (1 / d)) ((mx - o) * (1 / d)) with hc | hc
      · rw [if_neg (not_lt.mpr hc), mul_one_div,
          max_eq_right (by rw [mul_one_div, mul_one_div] at hc; exact hc)]
      · rw [if_pos hc, mul_one_div,
          max_eq_left (by rw [mul_one_div, mul_one_div] at hc; exact hc.le)]
    have h0 : (if min ((mn - o) / d) ((mx - o) / d) > t0
        then min ((mn - o) / d) ((mx - o) / d) else t0) =
        max t0 (min ((mn - o) / d) ((mx - o) / d)) := by
      rcases le_or_lt (min ((mn - o) / d) ((mx - o) / d)) t0 with hc | hc
      · rw [if_neg (not_lt.mpr hc), max_eq_left hc]
      · rw [if_pos hc, max_eq_right hc.le]
    have h1 : (if max ((mn - o) / d) ((mx - o) / d) < t1
        then max ((mn - o) / d) ((mx - o) / d) else t1) =
        min t1 (max ((mn - o) / d) ((mx - o) / d)) := by
      rcases le_or_lt t1 (max ((mn - o) / d) ((mx - o) / d)) with hc | hc
      · rw [if_neg (not_lt.mpr hc), min_eq_left hc]
      · rw [if_pos hc, min_eq_right hc.le]
    rw [hmn, hmx, h0, h1, hN, hF,
      if_neg (show ¬ (d = 0 ∧ (o < mn ∨ mx < o)) from fun hc => hd hc.1)]

lemma axisStep_none (mn mx o d : ℚ) : axisStep mn mx o d none = none := rfl

lemma slabSpec_none_of_far_lt_near (b : AABBQ) (ray : RayQ)
    (h : slabFar b.min.z b.max.z ray.origin.z ray.direction.z
        (slabFar b.min.y b.max.y ray.origin.y ray.direction.y
          (slabFar b.min.x b.max.x ray.origin.x ray.direction.x ray.tmax)) <
      slabNear b.min.z b.max.z ray.origin.z ray.direction.z
        (slabNear b.min.y b.max.y ray.origin.y ray.direction.y
          (slabNear b.min.x b.max.x ray.origin.x ray.direction.x ray.tmin))) :
    slabSpec b ray = none := by
  unfold slabSpec
  by_cases hzm : slabZeroMiss b ray
  · rw [if_pos hzm]
  · rw [if_neg hzm, if_pos h]

/-- C5 (amended): for every non-empty AABB and every ray whose parameter
interval satisfies t_min ≤ t_max, AABB::intersect implements the 3-axis slab
method exactly as the specification describes it: zero-direction axes demand
slab containment of the origin and otherwise impose no restriction, the other
axes intersect their ordered slab crossings with the running interval started
at [t_min, t_max], an empty final interval yields no hit, and otherwise
{t_near, t_far} is returned.  (The restriction t_min ≤ t_max is forced by the
counterexample below: with an all-zero direction the code never re-checks
interval emptiness.) -/
theorem aabb_intersect_matches_slab_spec (b : AABBQ) (ray : RayQ)
    (hne : ¬ b.isEmptyBox) (hr : ray.tmin ≤ ray.tmax) :
    b.intersect ray = slabSpec b ray := by
  unfold AABBQ.intersect
  rw [if_neg hne, axisStep_some _ _ _ _ _ _ hr]
  by_cases hz1 : ray.direction.x = 0 ∧ (ray.origin.x < b.min.x ∨ b.max.x < ray.origin.x)
  · rw [if_pos hz1, axisStep_none, axisStep_none]
    unfold slabSpec
    rw [if_pos (show slabZeroMiss b ray from Or.inl hz1)]
  · rw [if_neg hz1]
    by_cases he1 : slabFar b.min.x b.max.x ray.origin.x ray.direction.x ray.tmax <
        slabNear b.min.x b.max.x ray.origin.x ray.direction.x ray.tmin
    · rw [if_pos he1, axisStep_none, axisStep_none]
      refine (slabSpec_none_of_far_lt_near b ray ?_).symm
      calc slabFar b.min.z b.max.z ray.origin.z ray.direction.z
            (slabFar b.min.y b.max.y ray.origin.y ray.direction.y
              (slabFar b.min.x b.max.x ray.origin.x ray.direction.x ray.tmax))
          ≤ slabFar b.min.y b.max.y ray.origin.y ray.direction.y
              (slabFar b.min.x b.max.x ray.origin.x ray.direction.x ray.tmax) :=
            slabFar_le _ _ _ _ _
        _ ≤ slabFar b.min.x b.max.x ray.origin.x ray.direction.x ray.tmax :=
            slabFar_le _ _ _ _ _
        _ < slabNear b.min.x b.max.x ray.origin.x ray.direction.x ray.tmin := he1
        _ ≤ slabNear b.min.y b.max.y ray.origin.y ray.direction.y
              (slabNear b.min.x b.max.x ray.origin.x ray.direction.x ray.tmin) :=
            le_slabNear _ _ _ _ _
        _ ≤ slabNear b.min.z b.max.z ray.origin.z ray.direction.z
              (slabNear b.min.y b.max.y ray.origin.y ray.direction.y
                (slabNear b.min.x b.max.x ray.origin.x ray.direction.x ray.tmin)) :=
            le_slabNear _ _ _ _ _
    · rw [if_neg he1, axisStep_some _ _ _ _ _ _ (not_lt.mp he1)]
      by_cases hz2 : ray.direction.y = 0 ∧
          (ray.origin.y < b.min.y ∨ b.max.y < ray.origin.y)
      · rw [if_pos hz2, axisStep_none]
        unfold slabSpec
        rw [if_pos (show slabZeroMiss b ray from Or.inr (Or.inl hz2))]
      · rw [if_neg hz2]
        by_cases he2 : slabFar b.min.y b.max.y ray.origin.y ray.direction.y
            (slabFar b.min.x b.max.x ray.origin.x ray.direction.x ray.tmax) <
          slabNear b.min.y b.max.y ray.origin.y ray.direction.y
            (slabNear b.min.x b.max.x ray.origin.x ray.direction.x ray.tmin)
        · rw [if_pos he2, axisStep_none]
          refine (slabSpec_none_of_far_lt_near b ray ?_).symm
          calc slabFar b.min.z b.max.z ray.origin.z ray.direction.z
                (slabFar b.min.y b.max.y ray.origin.y ray.direction.y
                  (slabFar b.min.x b.max.x ray.origin.x ray.direction.x ray.tmax))
              ≤ slabFar b.min.y b.max.y ray.origin.y ray.direction.y
                  (slabFar b.min.x b.max.x ray.origin.x ray.direction.x ray.tmax) :=
                slabFar_le _ _ _ _ _
            _ < slabNear b.min.y b.max.y ray.origin.y ray.direction.y
                  (slabNear b.min.x b.max.x ray.origin.x ray.direction.x ray.tmin) := he2
            _ ≤ slabNear b.min.z b.max.z ray.origin.z ray.direction.z
                  (slabNear b.min.y b.max.y ray.origin.y ray.direction.y
                    (slabNear b.min.x b.max.x ray.origin.x ray.direction.x ray.tmin)) :=
                le_slabNear _ _ _ _ _
        · rw [if_neg he2, axisStep_some _ _ _ _ _ _ (not_lt.mp he2)]
          by_cases hz3 : ray.direction.z = 0 ∧
              (ray.origin.z < b.min.z ∨ b.max.z < ray.origin.z)
          · rw [if_pos hz3]
            unfold slabSpec
            rw [if_pos (show slabZeroMiss b ray from Or.inr (Or.inr hz3))]
          · rw [if_neg hz3]
            have hzm : ¬ slabZeroMiss b ray := by
              rintro (hc | hc | hc)
              exacts [hz1 hc, hz2 hc, hz3 hc]
            simp only [slabSpec]
            rw [if_neg hzm]

/-- Unit box [0,1]^3, used by the C5 counterexample and witness. -/
def cexBox : AABBQ := ⟨⟨0, 0, 0⟩, ⟨1, 1, 1⟩⟩

/-- Degenerate ray: all-zero direction, origin inside the box, t_min > t_max. -/
def cexRayDegenerate : RayQ := ⟨⟨1/2, 1/2, 1/2⟩, ⟨0, 0, 0⟩, 1, 0⟩

/-- C5 counterexample: for this non-empty box and this ray the final interval
[1, 0] is empty, so the claim says no hit is returned, yet AABB::intersect
returns {1, 0}: the emptiness check only runs on axes with a non-zero
direction component. -/
theorem aabb_intersect_empty_interval_cex :
    ¬ cexBox.isEmptyBox ∧
    AABBQ.intersect cexBox cexRayDegenerate = some (1, 0) ∧
    slabSpec cexBox cexRayDegenerate = none := by
  refine ⟨?_, ?_, ?_⟩
  · norm_num [AABBQ.isEmptyBox, cexBox]
  · norm_num [AABBQ.intersect, axisStep, AABBQ.isEmptyBox, cexBox, cexRayDegenerate]
  · norm_num [slabSpec, slabZeroMiss, slabNear, slabFar, cexBox, cexRayDegenerate]

/-- Valid ray through the unit box, used by the C5 witness. -/
def witRay : RayQ := ⟨⟨1/2, 1/2, 1/2⟩, ⟨0, 0, 1⟩, 0, 10⟩

/-- C5 witness: the amended theorem applied at a concrete non-empty box and a
concrete valid ray, with the common value evaluated. -/
theorem aabb_intersect_matches_slab_spec_witness :
    ¬ cexBox.isEmptyBox ∧ witRay.tmin ≤ witRay.tmax ∧
    AABBQ.intersect cexBox witRay = slabSpec cexBox witRay ∧
    AABBQ.intersect cexBox witRay = some (0, 1/2) :=
  ⟨by norm_num [AABBQ.isEmptyBox, cexBox], by norm_num [witRay],
    aabb_intersect_matches_slab_spec cexBox witRay
      (by norm_num [AABBQ.isEmptyBox, cexBox]) (by norm_num [witRay]),
    by norm_num [AABBQ.intersect, axisStep, AABBQ.isEmptyBox, cexBox, witRay]⟩

/-- C2: on every path-tracing loop iteration that found a hit, the Russian
roulette block behaves exactly as specified: at depth ≥ 3 it computes
q = 1 − clamp(max(beta_r, beta_g, beta_b), 0, 1), terminates when the drawn
uniform u satisfies u < q and otherwise divides beta component-wise by 1 − q;
at depth < 3 no roulette is applied (beta unchanged, never terminates). -/
theorem russian_roulette_exact (depth : ℕ) (beta : Color3Q) (u : ℚ) :
    russianRoulette depth beta u = russianRouletteSpec depth beta u ∧
    (depth < 3 → russianRoulette depth beta u = some beta) := by
  constructor
  · unfold russianRoulette russianRouletteSpec
    rcases lt_or_ge depth 3 with h | h
    · rw [if_neg (show ¬ 3 ≤ depth by omega), if_pos h]
    · rw [if_pos h, if_neg (show ¬ depth < 3 by omega)]
  · intro h
    unfold russianRoulette
    rw [if_neg (show ¬ 3 ≤ depth by omega)]

/-- C2 witness: at depth 0 (< 3) the roulette leaves beta untouched. -/
theorem russian_roulette_exact_witness :
    (0 : ℕ) < 3 ∧ russianRoulette 0 ⟨1, 1, 1⟩ 0 = some ⟨1, 1, 1⟩ :=
  ⟨by norm_num, (russian_roulette_exact 0 ⟨1, 1, 1⟩ 0).2 (by norm_num)⟩

/-- C7: the Camera constructor fails exactly when aspect > 0 or
0 < z_near < z_far is violated; on failure no camera value is produced, and on
success the camera stores exactly the supplied transform, field of view,
aspect, near and far. -/
theorem camera_ctor_validation (X : Type) (c2w : X) (fov a zn zf : ℚ) :
    ((Camera.make X c2w fov a zn zf = none) ↔ ¬ (0 < a ∧ 0 < zn ∧ zn < zf)) ∧
    (∀ cam : Camera X, Camera.make X c2w fov a zn zf = some cam →
      cam = ⟨c2w, fov, a, zn, zf⟩) := by
  constructor
  · unfold Camera.make
    by_cases h1 : 0 < a
    · by_cases h2 : 0 < zn
      · by_cases h3 : zn < zf
        · rw [if_neg (not_not.mpr h1),
            if_neg (show ¬ (¬ 0 < zn ∨ ¬ zn < zf) from
              fun hc => hc.elim (fun hA => hA h2) (fun hB => hB h3))]
          simp [h1, h2, h3]
        · rw [if_neg (not_not.mpr h1), if_pos (Or.inr h3)]
          simp [h3]
      · rw [if_neg (not_not.mpr h1), if_pos (Or.inl h2)]
        simp [h2]
    · rw [if_pos h1]
      simp [h1]
  · intro cam hcam
    unfold Camera.make at hcam
    split_ifs at hcam
    all_goals
      first
        | exact Option.noConfusion hcam
        | (injection hcam with h2; exact h2.symm)

/-- C7 witness: a valid parameter set constructs successfully and the stored
fields are exactly the supplied ones. -/
theorem camera_ctor_validation_witness :
    Camera.make Unit () 1 1 1 2 = some ⟨(), 1, 1, 1, 2⟩ ∧
    (⟨(), 1, 1, 1, 2⟩ : Camera Unit) = ⟨(), 1, 1, 1, 2⟩ :=
  ⟨by decide,
    (camera_ctor_validation Unit () 1 1 1 2).2 ⟨(), 1, 1, 1, 2⟩ (by decide)⟩

/-- C8: with thread_count = min(hw, height), the render row partition starts
at 0, ends at height, each range has height / thread_count rows plus one extra
exactly when t < height mod thread_count, every row y < height lies in exactly
one range, and any two ranges differ in size by at most one row. -/
theorem render_row_partition (hw height : ℕ) (hhw : 1 ≤ hw) (hh : 1 ≤ height) :
    rowStart hw height 0 = 0 ∧
    rowStart hw height (threadCount hw height) = height ∧
    (∀ t : ℕ, rowStart hw height (t + 1) =
      rowStart hw height t + height / threadCount hw height +
        (if t < height % threadCount hw height then 1 else 0)) ∧
    (∀ y : ℕ, y < height →
      ∃! t : ℕ, t < threadCount hw height ∧
        rowStart hw height t ≤ y ∧ y < rowStart hw height (t + 1)) ∧
    (∀ s t : ℕ, rowCount hw height s ≤ rowCount hw height t + 1) := by
  have htc : 1 ≤ threadCount hw height := le_min hhw hh
  have hend : rowStart hw height (threadCount hw height) = height := by
    have hr : height % threadCount hw height < threadCount hw height :=
      Nat.mod_lt _ (by omega)
    rw [rowStart_closed, min_eq_right hr.le]
    exact Nat.div_add_mod height (threadCount hw height)
  refine ⟨rfl, hend, ?_, ?_, ?_⟩
  · intro t
    show rowStart hw height t + rowCount hw height t = _
    rw [rowCount, Nat.add_assoc]
  · intro y hy
    obtain ⟨t, ht, h1, h2⟩ :=
      exists_block (rowStart hw height) (threadCount hw height) y
        (by simp [rowStart]) (by rw [hend]; exact hy)
    refine ⟨t, ⟨ht, h1, h2⟩, ?_⟩
    rintro t2 ⟨_, h21, h22⟩
    by_contra hne
    rcases Nat.lt_or_ge t2 t with hlt | hge
    · have hmono : rowStart hw height (t2 + 1) ≤ rowStart hw height t :=
        rowStart_mono hw height hlt
    -- y < rowStart (t2+1) ≤ rowStart t ≤ y
      omega
    · have hlt2 : t < t2 := lt_of_le_of_ne hge fun hc => hne hc.symm
      have hmono : rowStart hw height (t + 1) ≤ rowStart hw height t2 :=
        rowStart_mono hw height hlt2
      omega
  · intro s t
    unfold rowCount
    split_ifs <;> omega

/-- C8 witness: the partition of 8 rows over 3 hardware threads covers
exactly [0, 8). -/
theorem render_row_partition_witness :
    (1 : ℕ) ≤ 3 ∧ (1 : ℕ) ≤ 8 ∧ rowStart 3 8 (threadCount 3 8) = 8 :=
  ⟨by norm_num, by norm_num,
    (render_row_partition 3 8 (by norm_num) (by norm_num)).2.1⟩

/-! ## Real-scalar embeddings (geometry with square roots and trigonometry) -/

/-- Vector<T,3> instantiated at the reals. -/
structure Vec3 where
  x : ℝ
  y : ℝ
  z : ℝ

noncomputable instance : Add Vec3 := ⟨fun a b => ⟨a.x + b.x, a.y + b.y, a.z + b.z⟩⟩

noncomputable instance : Sub Vec3 := ⟨fun a b => ⟨a.x - b.x, a.y - b.y, a.z - b.z⟩⟩

noncomputable instance : Neg Vec3 := ⟨fun a => ⟨-a.x, -a.y, -a.z⟩⟩

/-- Scalar multiplication v * s. -/
noncomputable def Vec3.scale (v : Vec3) (s : ℝ) : Vec3 := ⟨v.x * s, v.y * s, v.z * s⟩

/-- Component-wise division by a scalar. -/
noncomputable def Vec3.divs (v : Vec3) (s : ℝ) : Vec3 := ⟨v.x / s, v.y / s, v.z / s⟩

/-- dot(a, b). -/
noncomputable def dot (a b : Vec3) : ℝ := a.x * b.x + a.y * b.y + a.z * b.z

/-- cross(a, b). -/
noncomputable def cross (a b : Vec3) : Vec3 :=
  ⟨a.y * b.z - a.z * b.y, a.z * b.x - a.x * b.z, a.x * b.y - a.y * b.x⟩

/-- Vector::norm(): Euclidean length. -/
noncomputable def Vec3.norm (v : Vec3) : ℝ := Real.sqrt (dot v v)

/-- Vector::normalized(): v / ||v|| when the length is non-zero, the zero
vector otherwise. -/
noncomputable def Vec3.normalized (v : Vec3) : Vec3 :=
  if v.norm = 0 then ⟨0, 0, 0⟩ else v.divs v.norm

/-- UV coordinate pair. -/
structure Vec2 where
  u : ℝ
  v : ℝ

/-- Ray<T> at the reals: origin, direction, valid interval. -/
structure RayR where
  origin : Vec3
  direction : Vec3
  tmin : ℝ
  tmax : ℝ

/-- Ray::at(t) = origin + direction * t. -/
noncomputable def RayR.at (r : RayR) (t : ℝ) : Vec3 := r.origin + r.direction.scale t

/-- Geometry<T>::Hit record {t, normal, uv} (the uv member is the one the
specification's hit record and every call site carry; the Geometry declaration
in the snapshot omits it, so hits produced by primitives leave it zero). -/
structure Hit where
  t : ℝ
  normal : Vec3
  uv : Vec2

/-! ### Sphere (sphere module, Sphere::intersect) -/

/-- Sphere primitive: center and radius. -/
structure Sphere where
  center : Vec3
  radius : ℝ

/-- Quadratic coefficient a = dot(d, d) of the ray-sphere equation. -/
noncomputable def Sphere.qa (ray : RayR) : ℝ := dot ray.direction ray.direction

/-- Quadratic coefficient b = 2 dot(o - c, d). -/
noncomputable def Sphere.qb (s : Sphere) (ray : RayR) : ℝ :=
  2 * dot (ray.origin - s.center) ray.direction

/-- Quadratic coefficient c = dot(o - c, o - c) - r². -/
noncomputable def Sphere.qc (s : Sphere) (ray : RayR) : ℝ :=
  dot (ray.origin - s.center) (ray.origin - s.center) - s.radius * s.radius

/-- Discriminant b² - 4ac. -/
noncomputable def Sphere.disc (s : Sphere) (ray : RayR) : ℝ :=
  s.qb ray * s.qb ray - 4 * Sphere.qa ray * s.qc ray

/-- Root (-b - sqrt(disc)) / (2a). -/
noncomputable def Sphere.root0 (s : Sphere) (ray : RayR) : ℝ :=
  (-s.qb ray - Real.sqrt (s.disc ray)) / (2 * Sphere.qa ray)

/-- Root (-b + sqrt(disc)) / (2a). -/
noncomputable def Sphere.root1 (s : Sphere) (ray : RayR) : ℝ :=
  (-s.qb ray + Real.sqrt (s.disc ray)) / (2 * Sphere.qa ray)

/-- Hit record built by Sphere::intersect at parameter t: outward normal
(p - c) normalized when its length is non-zero, +Z otherwise. -/
noncomputable def Sphere.mkHit (s : Sphere) (ray : RayR) (t : ℝ) : Hit :=
  let p := ray.at t
  let n := p - s.center
  let nn := n.norm
  ⟨t, if nn ≠ 0 then n.divs nn else ⟨0, 0, 1⟩, ⟨0, 0⟩⟩

/-- Sphere::intersect: quadratic solution, preferring the smaller root inside
[tmin, tmax], else the larger, else no hit. -/
noncomputable def Sphere.intersect (s : Sphere) (ray : RayR) : Option Hit :=
  if s.disc ray < 0 then none
  else
    let t0 := s.root0 ray
    let t1 := s.root1 ray
    let tlo := if t0 > t1 then t1 else t0
    let thi := if t0 > t1 then t0 else t1
    if tlo < ray.tmin ∨ tlo > ray.tmax then
      if thi < ray.tmin ∨ thi > ray.tmax then none
      else some (s.mkHit ray thi)
    else some (s.mkHit ray tlo)

/-! ### Plane (plane.ixx, Plane::intersect) -/

/-- Infinite plane: stored point and stored (unit) normal. -/
structure Plane where
  p0 : Vec3
  n : Vec3

/-- Plane::intersect: two-sided, rejecting near-parallel rays by the 1e-8
epsilon on the denominator. -/
noncomputable def Plane.intersect (pl : Plane) (ray : RayR) : Option Hit :=
  let denom := dot pl.n ray.direction
  let eps : ℝ := 1e-8
  if denom > -eps ∧ denom < eps then none
  else
    let t := dot (pl.p0 - ray.origin) pl.n / denom
    if t < ray.tmin ∨ t > ray.tmax then none
    else some ⟨t, pl.n, ⟨0, 0⟩⟩

/-! ### Triangle (mesh.ixx, intersect_triangle) -/

/-- TriHit record {t, u, v, normal}. -/
structure TriHit where
  t : ℝ
  u : ℝ
  v : ℝ
  normal : Vec3

/-- intersect_triangle: two-sided Moller-Trumbore test with the 1e-8
degeneracy epsilon on the determinant. -/
noncomputable def intersect_triangle (p0 p1 p2 : Vec3) (ray : RayR) : Option TriHit :=
  let e1 := p1 - p0
  let e2 := p2 - p0
  let pvec := cross ray.direction e2
  let det := dot e1 pvec
  let eps : ℝ := 1e-8
  if det > eps ∨ det < -eps then
    let inv_det := 1 / det
    let tvec := ray.origin - p0
    let u := dot tvec pvec * inv_det
    if u < 0 ∨ u > 1 then none
    else
      let qvec := cross tvec e1
      let v := dot ray.direction qvec * inv_det
      if v < 0 ∨ u + v > 1 then none
      else
        let t := dot e2 qvec * inv_det
        if t < ray.tmin ∨ t > ray.tmax then none
        else
          let n := cross e1 e2
          let nn := n.norm
          some ⟨t, u, v, if nn ≠ 0 then n.divs nn else ⟨0, 0, 1⟩⟩
  else none

/-! ### Scene-object ray mapping (scene_object.ixx, SceneObject::to_object_ray_) -/

/-- Vector<T,4>: homogeneous coordinates. -/
structure Vec4 where
  x : ℝ
  y : ℝ
  z : ℝ
  w : ℝ

/-- Matrix<T,4,4> stored as four rows. -/
structure Mat4 where
  r0 : Vec4
  r1 : Vec4
  r2 : Vec4
  r3 : Vec4

/-- Row dot product used by the matrix-vector product. -/
noncomputable def dot4 (a b : Vec4) : ℝ := a.x * b.x + a.y * b.y + a.z * b.z + a.w * b.w

/-- Matrix-vector multiplication (row-by-column). -/
noncomputable def Mat4.mulVec (m : Mat4) (v : Vec4) : Vec4 :=
  ⟨dot4 m.r0 v, dot4 m.r1 v, dot4 m.r2 v, dot4 m.r3 v⟩

/-- to_homogeneous_point: append w = 1. -/
def to_homogeneous_point (p : Vec3) : Vec4 := ⟨p.x, p.y, p.z, 1⟩

/-- to_homogeneous_dir: append w = 0. -/
def to_homogeneous_dir (d : Vec3) : Vec4 := ⟨d.x, d.y, d.z, 0⟩

/-- resize_dim<T,4,3>: truncate to the first three components. -/
def resize_dim43 (v : Vec4) : Vec3 := ⟨v.x, v.y, v.z⟩

/-- The inverse-transformed ray origin computed by to_object_ray_. -/
noncomputable def objOrigin (inv_world : Mat4) (ray_w : RayR) : Vec3 :=
  resize_dim43 (inv_world.mulVec (to_homogeneous_point ray_w.origin))

/-- The inverse-transformed ray direction d_obj computed by to_object_ray_. -/
noncomputable def objDir (inv_world : Mat4) (ray_w : RayR) : Vec3 :=
  resize_dim43 (inv_world.mulVec (to_homogeneous_dir ray_w.direction))

/-- SceneObject::to_object_ray_: map a world ray into object space; when the
mapped direction has non-zero length, normalize it and rescale tmin/tmax by
that length, otherwise pass everything through. -/
noncomputable def to_object_ray (inv_world : Mat4) (ray_w : RayR) : RayR :=
  let o := objOrigin inv_world ray_w
  let d_obj := objDir inv_world ray_w
  let len := d_obj.norm
  if len ≠ 0 then
    ⟨o, d_obj.divs len, ray_w.tmin * len, ray_w.tmax * len⟩
  else
    ⟨o, d_obj, ray_w.tmin, ray_w.tmax⟩

/-! ### Fresnel and hemisphere sampling (renderer_path_tracer.ixx, detail_pt) -/

/-- detail_pt::schlick: Schlick approximation of the Fresnel reflectance. -/
noncomputable def schlick (cos_theta eta_i eta_t : ℝ) : ℝ :=
  let r0 := ((eta_i - eta_t) / (eta_i + eta_t)) * ((eta_i - eta_t) / (eta_i + eta_t))
  r0 + (1 - r0) * (1 - cos_theta) ^ (5 : ℕ)

/-- detail_pt::cosine_sample_hemisphere. -/
noncomputable def cosine_sample_hemisphere (u1 u2 : ℝ) : Vec3 :=
  let r := Real.sqrt u1
  let theta := 2 * Real.pi * u2
  ⟨r * Real.cos theta, r * Real.sin theta, Real.sqrt (max 0 (1 - u1))⟩

/-! ### Nearest-hit scan of path_trace_ (renderer_path_tracer.ixx, lines 203-224) -/

/-- A scene object as the scan sees it, through the virtual interface: its
cached world AABB ray test, its world-space intersect, and the identity of its
material (modelling the address taken by best_m). -/
structure ScanObj where
  boxIntersect : RayR → Option (ℝ × ℝ)
  intersect : RayR → Option Hit
  material : ℕ

/-- The loop state of the nearest-hit scan in path_trace_. -/
structure ScanState where
  any_hit : Bool
  best_t : ℝ
  best_n : Vec3
  best_p : Vec3
  best_uv : Vec2
  best_m : Option ℕ

/-- Initial scan state: best_t = ray.tmax(), no hit, zero vectors, null
material pointer. -/
def initScan (ray : RayR) : ScanState :=
  ⟨false, ray.tmax, ⟨0, 0, 0⟩, ⟨0, 0, 0⟩, ⟨0, 0⟩, none⟩

/-- One iteration of the object loop in path_trace_: skip when the cached AABB
misses, skip when the object reports no hit, and accept a hit h exactly when
ray.tmin() ≤ h.t ∧ h.t ≤ best_t, storing t, the normalized normal, the hit
point, the uv and the material of that object. -/
noncomputable def scanStep (ray : RayR) (st : ScanState) (obj : ScanObj) : ScanState :=
  match obj.boxIntersect ray with
  | none => st
  | some _ =>
    match obj.intersect ray with
    | none => st
    | some h =>
      if ray.tmin ≤ h.t ∧ h.t ≤ st.best_t then
        ⟨true, h.t, h.normal.normalized, ray.at h.t, h.uv, some obj.material⟩
      else st

/-- The full nearest-hit scan over scene.objects() in insertion order. -/
noncomputable def nearestScan (objs : List ScanObj) (ray : RayR) : ScanState :=
  objs.foldl (scanStep ray) (initScan ray)

/-- A parameter t lies in the valid interval of a ray. -/
def inRange (ray : RayR) (t : ℝ) : Prop := ray.tmin ≤ t ∧ t ≤ ray.tmax

lemma not_inRange_iff (ray : RayR) (t : ℝ) :
    (t < ray.tmin ∨ t > ray.tmax) ↔ ¬ inRange ray t := by
  unfold inRange
  rw [not_and_or, not_le, not_le]

lemma Vec3.sub_def (a b : Vec3) : a - b = ⟨a.x - b.x, a.y - b.y, a.z - b.z⟩ := rfl

lemma Vec3.add_def (a b : Vec3) : a + b = ⟨a.x + b.x, a.y + b.y, a.z + b.z⟩ := rfl

lemma dot_self_nonneg (v : Vec3) : 0 ≤ dot v v := by
  unfold dot
  nlinarith [mul_self_nonneg v.x, mul_self_nonneg v.y, mul_self_nonneg v.z]

lemma norm_divs_norm (v : Vec3) (h : v.norm ≠ 0) : (v.divs v.norm).norm = 1 := by
  have hnn : 0 ≤ v.norm := Real.sqrt_nonneg _
  have hnpos : 0 < v.norm := lt_of_le_of_ne hnn (Ne.symm h)
  have hsq : v.norm * v.norm = dot v v := Real.mul_self_sqrt (dot_self_nonneg v)
  have hdpos : 0 < dot v v := by rw [← hsq]; exact mul_pos hnpos hnpos
  have hdot : dot (v.divs v.norm) (v.divs v.norm) = dot v v / (v.norm * v.norm) := by
    unfold Vec3.divs dot
    field_simp
  rw [Vec3.norm, hdot, hsq, div_self (ne_of_gt hdpos)]
  exact Real.sqrt_one

lemma Sphere.mkHit_t (s : Sphere) (ray : RayR) (t : ℝ) : (s.mkHit ray t).t = t := rfl

/-- C6: for cos_theta in [0,1] and strictly positive refractive indices, the
Schlick reflectance r0 + (1 - r0)(1 - cos_theta)^5 with
r0 = ((eta_i - eta_t)/(eta_i + eta_t))^2 lies in [0, 1]. -/
theorem schlick_bounds (cos_theta eta_i eta_t : ℝ)
    (hc0 : 0 ≤ cos_theta) (hc1 : cos_theta ≤ 1)
    (hi : 0 < eta_i) (ht : 0 < eta_t) :
    0 ≤ schlick cos_theta eta_i eta_t ∧ schlick cos_theta eta_i eta_t ≤ 1 := by
  simp only [schlick]
  set q : ℝ := (eta_i - eta_t) / (eta_i + eta_t) with hqdef
  have hsum : 0 < eta_i + eta_t := by linarith
  have hql : -1 < q := by
    rw [hqdef, lt_div_iff₀ hsum]
    linarith
  have hqu : q < 1 := by
    rw [hqdef, div_lt_one hsum]
    linarith
  have hr0 : 0 ≤ q * q := mul_self_nonneg q
  have hr1 : q * q < 1 := by nlinarith
  have hx0 : 0 ≤ (1 - cos_theta) ^ (5 : ℕ) := pow_nonneg (by linarith) 5
  have hx1 : (1 - cos_theta) ^ (5 : ℕ) ≤ 1 := pow_le_one₀ (by linarith) (by linarith)
  constructor
  · nlinarith [mul_nonneg (show (0:ℝ) ≤ 1 - q * q by linarith) hx0]
  · nlinarith [mul_le_mul_of_nonneg_left hx1 (show (0:ℝ) ≤ 1 - q * q by linarith)]

/-- C6 witness: the bounds applied at cos_theta = 1/2, eta_i = 1, eta_t = 3/2. -/
theorem schlick_bounds_witness :
    (0 : ℝ) ≤ 1/2 ∧ (1/2 : ℝ) ≤ 1 ∧ (0 : ℝ) < 1 ∧ (0 : ℝ) < 3/2 ∧
    0 ≤ schlick (1/2) 1 (3/2) ∧ schlick (1/2) 1 (3/2) ≤ 1 := by
  refine ⟨by norm_num, by norm_num, by norm_num, by norm_num, ?_, ?_⟩
  · exact (schlick_bounds (1/2) 1 (3/2) (by norm_num) (by norm_num)
      (by norm_num) (by norm_num)).1
  · exact (schlick_bounds (1/2) 1 (3/2) (by norm_num) (by norm_num)
      (by norm_num) (by norm_num)).2

/-- C9: for u1 in [0,1] and any u2, the cosine-weighted hemisphere sample
(sqrt(u1) cos(2 pi u2), sqrt(u1) sin(2 pi u2), sqrt(1 - u1)) has squared
Euclidean norm exactly 1 and non-negative z component. -/
theorem cosine_sample_hemisphere_unit (u1 u2 : ℝ) (h0 : 0 ≤ u1) (h1 : u1 ≤ 1) :
    dot (cosine_sample_hemisphere u1 u2) (cosine_sample_hemisphere u1 u2) = 1 ∧
    0 ≤ (cosine_sample_hemisphere u1 u2).z := by
  simp only [cosine_sample_hemisphere, dot]
  constructor
  · have hs : Real.sqrt u1 * Real.sqrt u1 = u1 := Real.mul_self_sqrt h0
    have hm : max 0 (1 - u1) = 1 - u1 := max_eq_right (by linarith)
    have hz : Real.sqrt (max 0 (1 - u1)) * Real.sqrt (max 0 (1 - u1)) = 1 - u1 := by
      rw [hm]
      exact Real.mul_self_sqrt (by linarith)
    have htrig : Real.sin (2 * Real.pi * u2) ^ 2 + Real.cos (2 * Real.pi * u2) ^ 2 = 1 :=
      Real.sin_sq_add_cos_sq _
    nlinarith [hs, hz, htrig]
  · exact Real.sqrt_nonneg _

/-- C9 witness: the sample at u1 = 1/4, u2 = 1/3 lies on the unit hemisphere. -/
theorem cosine_sample_hemisphere_unit_witness :
    (0 : ℝ) ≤ 1/4 ∧ (1/4 : ℝ) ≤ 1 ∧
    dot (cosine_sample_hemisphere (1/4) (1/3)) (cosine_sample_hemisphere (1/4) (1/3)) = 1 ∧
    0 ≤ (cosine_sample_hemisphere (1/4) (1/3)).z := by
  refine ⟨by norm_num, by norm_num, ?_, ?_⟩
  · exact (cosine_sample_hemisphere_unit (1/4) (1/3) (by norm_num) (by norm_num)).1
  · exact (cosine_sample_hemisphere_unit (1/4) (1/3) (by norm_num) (by norm_num)).2

/-- C3: to_object_ray_ maps the origin through the inverse matrix; when the
inverse-transformed direction d_obj has length len != 0, the object-space ray
carries the unit direction d_obj / len and the interval [tmin * len,
tmax * len]; when len = 0 it carries d_obj and the world interval unchanged. -/
theorem to_object_ray_spec (M : Mat4) (ray_w : RayR) :
    ((objDir M ray_w).norm ≠ 0 →
      to_object_ray M ray_w =
        ⟨objOrigin M ray_w, (objDir M ray_w).divs (objDir M ray_w).norm,
          ray_w.tmin * (objDir M ray_w).norm, ray_w.tmax * (objDir M ray_w).norm⟩ ∧
      (to_object_ray M ray_w).direction.norm = 1) ∧
    ((objDir M ray_w).norm = 0 →
      to_object_ray M ray_w =
        ⟨objOrigin M ray_w, objDir M ray_w, ray_w.tmin, ray_w.tmax⟩) := by
  constructor
  · intro hlen
    have heq : to_object_ray M ray_w =
        ⟨objOrigin M ray_w, (objDir M ray_w).divs (objDir M ray_w).norm,
          ray_w.tmin * (objDir M ray_w).norm, ray_w.tmax * (objDir M ray_w).norm⟩ := by
      simp only [to_object_ray]
      rw [if_pos hlen]
    refine ⟨heq, ?_⟩
    rw [heq]
    exact norm_divs_norm _ hlen
  · intro hlen
    simp only [to_object_ray]
    rw [if_neg (not_not_intro hlen)]

/-- Identity 4x4 matrix, used by the C3 witness. -/
noncomputable def idMat4 : Mat4 :=
  ⟨⟨1, 0, 0, 0⟩, ⟨0, 1, 0, 0⟩, ⟨0, 0, 1, 0⟩, ⟨0, 0, 0, 1⟩⟩

/-- World ray with unit +Z direction, used by the C3 witness. -/
noncomputable def c3WitRay : RayR := ⟨⟨0, 0, 0⟩, ⟨0, 0, 1⟩, 2, 5⟩

/-- C3 witness: under the identity inverse matrix the mapped direction has
length 1 and the resulting object-space direction is unit. -/
theorem to_object_ray_spec_witness :
    (objDir idMat4 c3WitRay).norm ≠ 0 ∧
    (to_object_ray idMat4 c3WitRay).direction.norm = 1 := by
  have hobj : objDir idMat4 c3WitRay = ⟨0, 0, 1⟩ := by
    simp [objDir, Mat4.mulVec, dot4, resize_dim43, to_homogeneous_dir, idMat4, c3WitRay]
  have hne : (objDir idMat4 c3WitRay).norm ≠ 0 := by
    rw [hobj]
    simp [Vec3.norm, dot]
  exact ⟨hne, ((to_object_ray_spec idMat4 c3WitRay).1 hne).2⟩

lemma sphere_intersect_eq (s : Sphere) (ray : RayR) :
    s.intersect ray =
      if s.disc ray < 0 then none
      else
        if min (s.root0 ray) (s.root1 ray) < ray.tmin ∨
            min (s.root0 ray) (s.root1 ray) > ray.tmax then
          if max (s.root0 ray) (s.root1 ray) < ray.tmin ∨
              max (s.root0 ray) (s.root1 ray) > ray.tmax then none
          else some (s.mkHit ray (max (s.root0 ray) (s.root1 ray)))
        else some (s.mkHit ray (min (s.root0 ray) (s.root1 ray))) := by
  have hlo : (if s.root0 ray > s.root1 ray then s.root1 ray else s.root0 ray) =
      min (s.root0 ray) (s.root1 ray) := by
    rcases le_or_lt (s.root0 ray) (s.root1 ray) with hc | hc
    · rw [if_neg (not_lt.mpr hc), min_eq_left hc]
    · rw [if_pos hc, min_eq_right hc.le]
  have hhi : (if s.root0 ray > s.root1 ray then s.root0 ray else s.root1 ray) =
      max (s.root0 ray) (s.root1 ray) := by
    rcases le_or_lt (s.root0 ray) (s.root1 ray) with hc | hc
    · rw [if_neg (not_lt.mpr hc), max_eq_right hc]
    · rw [if_pos hc, max_eq_left hc.le]
  simp only [Sphere.intersect]
  rw [hlo, hhi]

/-- The parameter t computed by Plane::intersect. -/
noncomputable def Plane.tHit (pl : Plane) (ray : RayR) : ℝ :=
  dot (pl.p0 - ray.origin) pl.n / dot pl.n ray.direction

lemma plane_intersect_eq (pl : Plane) (ray : RayR) :
    pl.intersect ray =
      if dot pl.n ray.direction > -(1e-8 : ℝ) ∧ dot pl.n ray.direction < (1e-8 : ℝ) then
        none
      else
        if pl.tHit ray < ray.tmin ∨ pl.tHit ray > ray.tmax then none
        else some ⟨pl.tHit ray, pl.n, ⟨0, 0⟩⟩ := rfl

/-- The Moller-Trumbore determinant dot(e1, cross(d, e2)). -/
noncomputable def triDet (p0 p1 p2 : Vec3) (ray : RayR) : ℝ :=
  dot (p1 - p0) (cross ray.direction (p2 - p0))

/-- The barycentric u coordinate of intersect_triangle. -/
noncomputable def triU (p0 p1 p2 : Vec3) (ray : RayR) : ℝ :=
  dot (ray.origin - p0) (cross ray.direction (p2 - p0)) * (1 / triDet p0 p1 p2 ray)

/-- The barycentric v coordinate of intersect_triangle. -/
noncomputable def triV (p0 p1 p2 : Vec3) (ray : RayR) : ℝ :=
  dot ray.direction (cross (ray.origin - p0) (p1 - p0)) * (1 / triDet p0 p1 p2 ray)

/-- The parameter t computed by intersect_triangle. -/
noncomputable def triT (p0 p1 p2 : Vec3) (ray : RayR) : ℝ :=
  dot (p2 - p0) (cross (ray.origin - p0) (p1 - p0)) * (1 / triDet p0 p1 p2 ray)

lemma intersect_triangle_eq (p0 p1 p2 : Vec3) (ray : RayR) :
    intersect_triangle p0 p1 p2 ray =
      if triDet p0 p1 p2 ray > (1e-8 : ℝ) ∨ triDet p0 p1 p2 ray < -(1e-8 : ℝ) then
        if triU p0 p1 p2 ray < 0 ∨ triU p0 p1 p2 ray > 1 then none
        else
          if triV p0 p1 p2 ray < 0 ∨ triU p0 p1 p2 ray + triV p0 p1 p2 ray > 1 then none
          else
            if triT p0 p1 p2 ray < ray.tmin ∨ triT p0 p1 p2 ray > ray.tmax then none
            else
              some ⟨triT p0 p1 p2 ray, triU p0 p1 p2 ray, triV p0 p1 p2 ray,
                if (cross (p1 - p0) (p2 - p0)).norm ≠ 0 then
                  (cross (p1 - p0) (p2 - p0)).divs (cross (p1 - p0) (p2 - p0)).norm
                else ⟨0, 0, 1⟩⟩
      else none := rfl

/-- C4: Sphere::intersect returns no hit iff the discriminant is negative or
neither root of the quadratic lies in [tmin, tmax]; otherwise it returns a hit
at the smaller root when that root is in range, and at the larger root
otherwise. -/
theorem sphere_intersect_root_selection (s : Sphere) (ray : RayR) :
    (s.intersect ray = none ↔
      s.disc ray < 0 ∨
        (¬ inRange ray (min (s.root0 ray) (s.root1 ray)) ∧
         ¬ inRange ray (max (s.root0 ray) (s.root1 ray)))) ∧
    (0 ≤ s.disc ray → inRange ray (min (s.root0 ray) (s.root1 ray)) →
      s.intersect ray = some (s.mkHit ray (min (s.root0 ray) (s.root1 ray)))) ∧
    (0 ≤ s.disc ray → ¬ inRange ray (min (s.root0 ray) (s.root1 ray)) →
      inRange ray (max (s.root0 ray) (s.root1 ray)) →
      s.intersect ray = some (s.mkHit ray (max (s.root0 ray) (s.root1 ray)))) := by
  rw [sphere_intersect_eq]
  refine ⟨?_, ?_, ?_⟩
  · by_cases h1 : s.disc ray < 0
    · rw [if_pos h1]
      exact iff_of_true rfl (Or.inl h1)
    · rw [if_neg h1]
      by_cases h2 : min (s.root0 ray) (s.root1 ray) < ray.tmin ∨
          min (s.root0 ray) (s.root1 ray) > ray.tmax
      · rw [if_pos h2]
        by_cases h3 : max (s.root0 ray) (s.root1 ray) < ray.tmin ∨
            max (s.root0 ray) (s.root1 ray) > ray.tmax
        · rw [if_pos h3]
          exact iff_of_true rfl
            (Or.inr ⟨(not_inRange_iff ray _).mp h2, (not_inRange_iff ray _).mp h3⟩)
        · rw [if_neg h3]
          refine iff_of_false (by simp) ?_
          rintro (hc | hc)
          · exact h1 hc
          · refine hc.2 ?_
            by_contra hn
            exact h3 ((not_inRange_iff ray _).mpr hn)
      · rw [if_neg h2]
        refine iff_of_false (by simp) ?_
        rintro (hc | hc)
        · exact h1 hc
        · refine hc.1 ?_
          by_contra hn
          exact h2 ((not_inRange_iff ray _).mpr hn)
  · intro hd hin
    rw [if_neg (not_lt.mpr hd),
      if_neg (fun hc => ((not_inRange_iff ray _).mp hc) hin)]
  · intro hd hnin hin2
    rw [if_neg (not_lt.mpr hd), if_pos ((not_inRange_iff ray _).mpr hnin),
      if_neg (fun hc => ((not_inRange_iff ray _).mp hc) hin2)]

/-- Unit sphere at the origin, used by the C4 witness. -/
noncomputable def c4Sphere : Sphere := ⟨⟨0, 0, 0⟩, 1⟩

/-- Axis-aligned ray toward the unit sphere, used by the C4 witness. -/
noncomputable def c4Ray : RayR := ⟨⟨0, 0, -3⟩, ⟨0, 0, 1⟩, 0, 100⟩

/-- C4 witness: for the unit sphere seen from (0,0,-3) along +Z the
discriminant is 4 and the smaller root 2 is in range, so the hit is taken
there. -/
theorem sphere_intersect_root_selection_witness :
    0 ≤ c4Sphere.disc c4Ray ∧
    inRange c4Ray (min (c4Sphere.root0 c4Ray) (c4Sphere.root1 c4Ray)) ∧
    Sphere.intersect c4Sphere c4Ray =
      some (c4Sphere.mkHit c4Ray (min (c4Sphere.root0 c4Ray) (c4Sphere.root1 c4Ray))) := by
  have ha : Sphere.qa c4Ray = 1 := by
    norm_num [Sphere.qa, dot, c4Ray]
  have hb : c4Sphere.qb c4Ray = -6 := by
    norm_num [Sphere.qb, dot, Vec3.sub_def, c4Sphere, c4Ray]
  have hc : c4Sphere.qc c4Ray = 8 := by
    norm_num [Sphere.qc, dot, Vec3.sub_def, c4Sphere, c4Ray]
  have hd : c4Sphere.disc c4Ray = 4 := by
    rw [Sphere.disc, ha, hb, hc]
    norm_num
  have hsq : Real.sqrt (4 : ℝ) = 2 := by
    rw [show (4 : ℝ) = 2 ^ 2 by norm_num, Real.sqrt_sq (by norm_num : (0:ℝ) ≤ 2)]
  have hr0 : c4Sphere.root0 c4Ray = 2 := by
    rw [Sphere.root0, ha, hb, hd, hsq]
    norm_num
  have hr1 : c4Sphere.root1 c4Ray = 4 := by
    rw [Sphere.root1, ha, hb, hd, hsq]
    norm_num
  have hmin : min (c4Sphere.root0 c4Ray) (c4Sphere.root1 c4Ray) = 2 := by
    rw [hr0, hr1]
    norm_num
  have hdnn : 0 ≤ c4Sphere.disc c4Ray := by
    rw [hd]
    norm_num
  have hin : inRange c4Ray (min (c4Sphere.root0 c4Ray) (c4Sphere.root1 c4Ray)) := by
    rw [hmin]
    exact ⟨by norm_num [c4Ray], by norm_num [c4Ray]⟩
  exact ⟨hdnn, hin, (sphere_intersect_root_selection c4Sphere c4Ray).2.1 hdnn hin⟩

/-- C10: every hit returned by Sphere::intersect, Plane::intersect or
intersect_triangle has its parameter t inside [ray.tmin, ray.tmax]. -/
theorem primitive_hits_within_range :
    (∀ (s : Sphere) (ray : RayR) (h : Hit), s.intersect ray = some h →
      ray.tmin ≤ h.t ∧ h.t ≤ ray.tmax) ∧
    (∀ (pl : Plane) (ray : RayR) (h : Hit), pl.intersect ray = some h →
      ray.tmin ≤ h.t ∧ h.t ≤ ray.tmax) ∧
    (∀ (p0 p1 p2 : Vec3) (ray : RayR) (th : TriHit),
      intersect_triangle p0 p1 p2 ray = some th →
      ray.tmin ≤ th.t ∧ th.t ≤ ray.tmax) := by
  refine ⟨?_, ?_, ?_⟩
  · intro s ray h hint
    rw [sphere_intersect_eq] at hint
    by_cases h1 : s.disc ray < 0
    · rw [if_pos h1] at hint
      exact Option.noConfusion hint
    · rw [if_neg h1] at hint
      by_cases h2 : min (s.root0 ray) (s.root1 ray) < ray.tmin ∨
          min (s.root0 ray) (s.root1 ray) > ray.tmax
      · rw [if_pos h2] at hint
        by_cases h3 : max (s.root0 ray) (s.root1 ray) < ray.tmin ∨
            max (s.root0 ray) (s.root1 ray) > ray.tmax
        · rw [if_pos h3] at hint
          exact Option.noConfusion hint
        · rw [if_neg h3] at hint
          injection hint with he
          rw [← he, Sphere.mkHit_t]
          have h4 := not_or.mp h3
          exact ⟨not_lt.mp h4.1, not_lt.mp h4.2⟩
      · rw [if_neg h2] at hint
        injection hint with he
        rw [← he, Sphere.mkHit_t]
        have h4 := not_or.mp h2
        exact ⟨not_lt.mp h4.1, not_lt.mp h4.2⟩
  · intro pl ray h hint
    rw [plane_intersect_eq] at hint
    by_cases h1 : dot pl.n ray.direction > -(1e-8 : ℝ) ∧ dot pl.n ray.direction < (1e-8 : ℝ)
    · rw [if_pos h1] at hint
      exact Option.noConfusion hint
    · rw [if_neg h1] at hint
      by_cases h2 : pl.tHit ray < ray.tmin ∨ pl.tHit ray > ray.tmax
      · rw [if_pos h2] at hint
        exact Option.noConfusion hint
      · rw [if_neg h2] at hint
        injection hint with he
        rw [← he]
        have h4 := not_or.mp h2
        exact ⟨not_lt.mp h4.1, not_lt.mp h4.2⟩
  · intro p0 p1 p2 ray th hint
    rw [intersect_triangle_eq] at hint
    by_cases g1 : triDet p0 p1 p2 ray > (1e-8 : ℝ) ∨ triDet p0 p1 p2 ray < -(1e-8 : ℝ)
    · rw [if_pos g1] at hint
      by_cases g2 : triU p0 p1 p2 ray < 0 ∨ triU p0 p1 p2 ray > 1
      · rw [if_pos g2] at hint
        exact Option.noConfusion hint
      · rw [if_neg g2] at hint
        by_cases g3 : triV p0 p1 p2 ray < 0 ∨
            triU p0 p1 p2 ray + triV p0 p1 p2 ray > 1
        · rw [if_pos g3] at hint
          exact Option.noConfusion hint
        · rw [if_neg g3] at hint
          by_cases g4 : triT p0 p1 p2 ray < ray.tmin ∨ triT p0 p1 p2 ray > ray.tmax
          · rw [if_pos g4] at hint
            exact Option.noConfusion hint
          · rw [if_neg g4] at hint
            injection hint with he
            rw [← he]
            have h4 := not_or.mp g4
            exact ⟨not_lt.mp h4.1, not_lt.mp h4.2⟩
    · rw [if_neg g1] at hint
      exact Option.noConfusion hint

/-- Plane z = 0 with +Z normal, used by the C10 witness. -/
noncomputable def c10Plane : Plane := ⟨⟨0, 0, 0⟩, ⟨0, 0, 1⟩⟩

/-- Downward ray from (0,0,1), used by the C10 witness. -/
noncomputable def c10Ray : RayR := ⟨⟨0, 0, 1⟩, ⟨0, 0, -1⟩, 0, 10⟩

/-- C10 witness: the plane hit at t = 1 lies inside [0, 10]. -/
theorem primitive_hits_within_range_witness :
    c10Plane.intersect c10Ray = some ⟨1, ⟨0, 0, 1⟩, ⟨0, 0⟩⟩ ∧
    c10Ray.tmin ≤ (⟨1, ⟨0, 0, 1⟩, ⟨0, 0⟩⟩ : Hit).t ∧
    (⟨1, ⟨0, 0, 1⟩, ⟨0, 0⟩⟩ : Hit).t ≤ c10Ray.tmax := by
  have heval : c10Plane.intersect c10Ray = some ⟨1, ⟨0, 0, 1⟩, ⟨0, 0⟩⟩ := by
    simp only [Plane.intersect, c10Plane, c10Ray, dot, Vec3.sub_def]
    norm_num
  refine ⟨heval, ?_, ?_⟩
  · exact (primitive_hits_within_range.2.1 c10Plane c10Ray _ heval).1
  · exact (primitive_hits_within_range.2.1 c10Plane c10Ray _ heval).2

/-- First scan object of the C1 tie: always box-hit, hit at t = 2, material
tag 0. -/
noncomputable def scanObjA : ScanObj :=
  ⟨fun _ => some (0, 0), fun _ => some ⟨2, ⟨0, 0, 1⟩, ⟨0, 0⟩⟩, 0⟩

/-- Second scan object of the C1 tie: always box-hit, hit at the identical
t = 2, material tag 1. -/
noncomputable def scanObjB : ScanObj :=
  ⟨fun _ => some (0, 0), fun _ => some ⟨2, ⟨1, 0, 0⟩, ⟨0, 0⟩⟩, 1⟩

/-- Ray with interval [0, 10] used by the C1 counterexample and witness. -/
noncomputable def scanRay : RayR := ⟨⟨0, 0, 0⟩, ⟨0, 0, 1⟩, 0, 10⟩

/-- C1 counterexample: two objects report valid hits with the identical t = 2,
yet the winning material is the second object's, not the first's: the `≤`
comparison lets the later object overwrite the tie. -/
theorem nearest_scan_tie_cex :
    (nearestScan [scanObjA, scanObjB] scanRay).best_m = some scanObjB.material ∧
    (nearestScan [scanObjA, scanObjB] scanRay).best_m ≠ some scanObjA.material := by
  have hstep : (nearestScan [scanObjA, scanObjB] scanRay).best_m = some 1 := by
    simp only [nearestScan, List.foldl_cons, List.foldl_nil, scanStep, scanObjA,
      scanObjB, initScan, scanRay]
    norm_num
  constructor
  · rw [hstep]
    rfl
  · rw [hstep]
    simp [scanObjA]

lemma foldl_scanStep_unchanged (ray : RayR) (st : ScanState) :
    ∀ post : List ScanObj,
      (∀ o2 ∈ post, ∀ bh2, o2.boxIntersect ray = some bh2 →
        ∀ h3, o2.intersect ray = some h3 →
          ¬ (ray.tmin ≤ h3.t ∧ h3.t ≤ st.best_t)) →
      List.foldl (scanStep ray) st post = st := by
  intro post
  induction post with
  | nil => intro _; rfl
  | cons a as ih =>
    intro hp
    have hstep : scanStep ray st a = st := by
      unfold scanStep
      cases hba : a.boxIntersect ray with
      | none => rfl
      | some bh2 =>
        cases hha : a.intersect ray with
        | none => rfl
        | some h3 =>
          exact if_neg (hp a (List.mem_cons_self a as) bh2 hba h3 hha)
    rw [List.foldl_cons, hstep]
    exact ih fun o2 hm bh2 hb2 h3 hh3 =>
      hp o2 (List.mem_cons_of_mem a hm) bh2 hb2 h3 hh3

/-- C1 (amended): when an object has a box hit and reports a hit whose t is
valid and less than or equal to the best t of the scan of the objects before
it — in particular on an exact tie with an earlier object — and no object
after it ties or beats that t, the winning normal, uv and material are that
object's: with the `≤` comparison, the last object reporting the winning t in
insertion order wins, not the first. -/
theorem nearest_scan_last_tie_wins (ray : RayR) (pre post : List ScanObj)
    (o : ScanObj) (bh : ℝ × ℝ) (h : Hit)
    (hbox : o.boxIntersect ray = some bh)
    (hhit : o.intersect ray = some h)
    (h1 : ray.tmin ≤ h.t) (h2 : h.t ≤ (nearestScan pre ray).best_t)
    (hpost : ∀ o2 ∈ post, ∀ bh2, o2.boxIntersect ray = some bh2 →
      ∀ h3, o2.intersect ray = some h3 → ¬ (ray.tmin ≤ h3.t ∧ h3.t ≤ h.t)) :
    (nearestScan (pre ++ o :: post) ray).best_m = some o.material ∧
    (nearestScan (pre ++ o :: post) ray).best_t = h.t ∧
    (nearestScan (pre ++ o :: post) ray).best_n = h.normal.normalized ∧
    (nearestScan (pre ++ o :: post) ray).best_uv = h.uv := by
  have hS : scanStep ray (nearestScan pre ray) o =
      ⟨true, h.t, h.normal.normalized, ray.at h.t, h.uv, some o.material⟩ := by
    simp only [scanStep, hbox, hhit]
    rw [if_pos ⟨h1, h2⟩]
  have happ : nearestScan (pre ++ o :: post) ray =
      List.foldl (scanStep ray) (scanStep ray (nearestScan pre ray) o) post := by
    unfold nearestScan
    rw [List.foldl_append, List.foldl_cons]
  have hunch : List.foldl (scanStep ray)
      (⟨true, h.t, h.normal.normalized, ray.at h.t, h.uv, some o.material⟩ : ScanState)
      post = ⟨true, h.t, h.normal.normalized, ray.at h.t, h.uv, some o.material⟩ :=
    foldl_scanStep_unchanged ray _ post
      (fun o2 hm bh2 hb2 h3 hh3 => hpost o2 hm bh2 hb2 h3 hh3)
  rw [happ, hS, hunch]
  exact ⟨rfl, rfl, rfl, rfl⟩

/-- C1 witness: the amended theorem applied to the concrete tie of the
counterexample: the prefix scan has best_t = 2 and the appended object B ties
at t = 2, so B's material wins. -/
theorem nearest_scan_last_tie_wins_witness :
    scanObjB.boxIntersect scanRay = some (0, 0) ∧
    scanObjB.intersect scanRay = some ⟨2, ⟨1, 0, 0⟩, ⟨0, 0⟩⟩ ∧
    scanRay.tmin ≤ (2 : ℝ) ∧
    (2 : ℝ) ≤ (nearestScan [scanObjA] scanRay).best_t ∧
    (nearestScan ([scanObjA] ++ scanObjB :: []) scanRay).best_m = some scanObjB.material := by
  have hbt : (nearestScan [scanObjA] scanRay).best_t = 2 := by
    simp only [nearestScan, List.foldl_cons, List.foldl_nil, scanStep, scanObjA,
      initScan, scanRay]
    norm_num
  refine ⟨rfl, rfl, by norm_num [scanRay], by rw [hbt], ?_⟩
  exact (nearest_scan_last_tie_wins scanRay [scanObjA] [] scanObjB (0, 0)
    ⟨2, ⟨1, 0, 0⟩, ⟨0, 0⟩⟩ rfl rfl (by norm_num [scanRay]) (by rw [hbt])
    (fun o2 hm => absurd hm (List.not_mem_nil o2))).1

end Glimmer
